import Mathlib

set_option maxRecDepth 1000000

/-!
Verification of the freevoice core: the dictionary phonetic matcher
(`src/dictionary.py`), the filler-word scrubber (`src/scrubber.py`) and the
hotkey recording state machine (`src/app.py`).  Python floats are modelled as
rationals; `difflib.SequenceMatcher.ratio` is embedded by its algorithm
(no junk heuristic applies: the compared strings are far shorter than 200
characters, so `autojunk` never marks any element).
-/

/-- Whitespace characters recognised by Python's `str.split()` / `\s` (ASCII). -/
def isPyWs (c : Char) : Bool :=
  c = ' ' || c = '\t' || c = '\n' || c = '\r' || c = '\x0b' || c = '\x0c'

/-- Python `str.lower()` on an ASCII string, per character. -/
def lowerList (l : List Char) : List Char := l.map Char.toLower

/-- Python `str.lower()` as a String operation. -/
def lowerStr (s : String) : String := String.mk (lowerList s.toList)

/-- Python `text.replace(' ', '')`. -/
def stripSpacesL (l : List Char) : List Char := l.filter (fun c => c ≠ ' ')

/-- `text.replace(' ', '')` as a String operation. -/
def stripSpaces (s : String) : String := String.mk (stripSpacesL s.toList)

/-- Length of a phrase with spaces removed: `len(phrase.replace(' ', ''))`. -/
def strippedLen (s : String) : Nat := (stripSpacesL s.toList).length

/-- Python `str.split()` (split on whitespace runs, dropping empties), fuelled. -/
def splitWordsAux : Nat → List Char → List (List Char)
  | 0, _ => []
  | _, [] => []
  | fuel + 1, c :: rest =>
    if isPyWs c then splitWordsAux fuel rest
    else (c :: rest.takeWhile (fun d => !isPyWs d)) ::
      splitWordsAux fuel (rest.dropWhile (fun d => !isPyWs d))

/-- Python `str.split()` returning strings. -/
def splitWords (s : String) : List String :=
  (splitWordsAux (s.toList.length + 1) s.toList).map String.mk

/-- Leftmost occurrence of `needle` in `hay` (Python `str.find`, as Option). -/
def findSubAux (needle : List Char) : Nat → List Char → Nat → Option Nat
  | 0, _, _ => none
  | fuel + 1, hay, i =>
    if needle.isPrefixOf hay then some i
    else
      match hay with
      | [] => none
      | _ :: rest => findSubAux needle fuel rest (i + 1)

/-- Python `hay.find(needle)`: index of the leftmost occurrence, if any. -/
def findSub (hay needle : List Char) : Option Nat :=
  findSubAux needle (hay.length + 1) hay 0

/-- `re.sub` with a literal pattern: replace all non-overlapping occurrences,
left to right (fuelled by the input length). -/
def replaceAllAux (pat rep : List Char) : Nat → List Char → List Char
  | 0, s => s
  | fuel + 1, s =>
    if pat.isPrefixOf s ∧ pat ≠ [] then
      rep ++ replaceAllAux pat rep fuel (s.drop pat.length)
    else
      match s with
      | [] => []
      | c :: rest => c :: replaceAllAux pat rep fuel rest

/-- Replace every occurrence of the literal `pat` by `rep`. -/
def replaceAll (s pat rep : List Char) : List Char :=
  replaceAllAux pat rep (s.length + 1) s

/-- `re.sub(pat + '$', rep, s)` for a literal `pat`: replace a trailing match. -/
def replaceSuffix (s pat rep : List Char) : List Char :=
  if pat.reverse.isPrefixOf s.reverse then s.take (s.length - pat.length) ++ rep else s

/-- `re.sub(r'(.)\1+', r'\1', s)`: collapse runs of a repeated character
(`.` does not match a newline, so newline runs are kept). -/
def collapseRuns : List Char → List Char
  | [] => []
  | c :: rest =>
    match rest with
    | [] => [c]
    | d :: _ =>
      if c = d ∧ c ≠ '\n' then collapseRuns rest
      else c :: collapseRuns rest

/-! ## difflib.SequenceMatcher (no junk)

`SequenceMatcher(None, a, b).ratio()` with `autojunk` inert (`len(b) < 200`).
-/

/-- Positions walker for `charPositions`. -/
def charPositionsAux (c : Char) (blo bhi : Nat) : List Char → Nat → List Nat
  | [], _ => []
  | d :: bs, j =>
    if d = c ∧ blo ≤ j ∧ j < bhi then j :: charPositionsAux c blo bhi bs (j + 1)
    else charPositionsAux c blo bhi bs (j + 1)

/-- Ascending positions of `c` in `b` that lie in `[blo, bhi)`
(`b2j.get(a[i], [])` restricted to the window, as difflib's inner loop does). -/
def charPositions (c : Char) (b : List Char) (blo bhi : Nat) : List Nat :=
  charPositionsAux c blo bhi b 0

/-- Lookup in an association list used for difflib's `j2len` rows. -/
def rowGet : List (Nat × Nat) → Nat → Nat
  | [], _ => 0
  | p :: ps, j => if p.1 = j then p.2 else rowGet ps j

/-- One inner iteration set of `find_longest_match`: walk the ascending
positions `js` of `a[i]` in the window, building the new `j2len` row and
updating the best block `(besti, bestj, bestsize)` when a strictly longer
common suffix is found. -/
def flmRow (i : Nat) : List Nat → List (Nat × Nat) → List (Nat × Nat) →
    (Nat × Nat × Nat) → (List (Nat × Nat) × (Nat × Nat × Nat))
  | [], _, newRow, best => (newRow, best)
  | j :: js, row, newRow, best =>
    let prev := if j = 0 then 0 else rowGet row (j - 1)
    let k := prev + 1
    let best := if best.2.2 < k then (i + 1 - k, j + 1 - k, k) else best
    flmRow i js row ((j, k) :: newRow) best

/-- The outer loop of `find_longest_match` over `i ∈ [alo, ahi)`. -/
def flmMain (a b : List Char) (blo bhi : Nat) :
    List Nat → List (Nat × Nat) → (Nat × Nat × Nat) → (Nat × Nat × Nat)
  | [], _, best => best
  | i :: is, row, best =>
    let js := charPositions (a.getD i ' ') b blo bhi
    let (newRow, best) := flmRow i js row [] best
    flmMain a b blo bhi is newRow best

/-- Extend the best block while adjacent elements match (difflib's trailing
`while` loops; with no junk the junk-flavoured loops never fire). -/
def flmExtendLeft (a b : List Char) (alo blo : Nat) :
    Nat → (Nat × Nat × Nat) → (Nat × Nat × Nat)
  | 0, best => best
  | fuel + 1, (besti, bestj, bestsize) =>
    if alo < besti ∧ blo < bestj ∧ a.getD (besti - 1) ' ' = b.getD (bestj - 1) '!' then
      flmExtendLeft a b alo blo fuel (besti - 1, bestj - 1, bestsize + 1)
    else (besti, bestj, bestsize)

/-- Extend the best block to the right while adjacent elements match. -/
def flmExtendRight (a b : List Char) (ahi bhi : Nat) :
    Nat → (Nat × Nat × Nat) → (Nat × Nat × Nat)
  | 0, best => best
  | fuel + 1, (besti, bestj, bestsize) =>
    if besti + bestsize < ahi ∧ bestj + bestsize < bhi ∧
        a.getD (besti + bestsize) ' ' = b.getD (bestj + bestsize) '!' then
      flmExtendRight a b ahi bhi fuel (besti, bestj, bestsize + 1)
    else (besti, bestj, bestsize)

/-- difflib `find_longest_match(alo, ahi, blo, bhi)` with no junk. -/
def findLongestMatch (a b : List Char) (alo ahi blo bhi : Nat) : Nat × Nat × Nat :=
  let best := flmMain a b blo bhi (List.range' alo (ahi - alo)) [] (alo, blo, 0)
  let best := flmExtendLeft a b alo blo (best.1 - alo + 1) best
  flmExtendRight a b ahi bhi (ahi - best.1 + 1) best

/-- Total size of all matching blocks (the `M` of `ratio = 2M/T`), mirroring
`get_matching_blocks`' divide-and-conquer around each longest match. -/
def matchSum (a b : List Char) : Nat → Nat → Nat → Nat → Nat → Nat
  | 0, _, _, _, _ => 0
  | fuel + 1, alo, ahi, blo, bhi =>
    let (i, j, k) := findLongestMatch a b alo ahi blo bhi
    if k = 0 then 0
    else k + matchSum a b fuel alo i blo j + matchSum a b fuel (i + k) ahi (j + k) bhi

/-- `SequenceMatcher(None, a, b).ratio()` as an exact rational:
`2M / (len a + len b)`, and `1` when both inputs are empty
(difflib's `_calculate_ratio`). -/
def ratioQ (a b : List Char) : ℚ :=
  let t := a.length + b.length
  if t = 0 then 1
  else mkRat (2 * (matchSum a b (a.length + b.length + 1) 0 a.length 0 b.length)) t

/-- Python `max` on two rationals, kernel-computable. -/
def qmax (a b : ℚ) : ℚ := if a ≤ b then b else a

/-- Python `min` on two rationals, kernel-computable. -/
def qmin (a b : ℚ) : ℚ := if a ≤ b then a else b

/-- Rational addition via the smart constructor (evaluates by reduction,
unlike the `Rat.add` of the library, which is `irreducible`). -/
def qadd (a b : ℚ) : ℚ := mkRat (a.num * b.den + b.num * a.den) (a.den * b.den)

/-- Rational subtraction via the smart constructor. -/
def qsub (a b : ℚ) : ℚ := mkRat (a.num * b.den - b.num * a.den) (a.den * b.den)

/-- Rational multiplication via the smart constructor. -/
def qmul (a b : ℚ) : ℚ := mkRat (a.num * b.num) (a.den * b.den)

/-- Python `abs` on a rational, kernel-computable. -/
def qabs (a : ℚ) : ℚ := if a < 0 then mkRat (-a.num) a.den else a

/-! ## Dictionary (src/dictionary.py) -/

/-- The ordered substitution table of `Dictionary._to_phonetic`.  Literal
patterns except the final three, handled separately below. -/
def phoneticSubs : List (List Char × List Char) :=
  [ ("effects".toList, "fx".toList), ("efects".toList, "fx".toList),
    ("efx".toList, "fx".toList),
    ("ea".toList, "e".toList), ("ee".toList, "e".toList),
    ("ai".toList, "a".toList), ("ay".toList, "a".toList),
    ("oo".toList, "u".toList), ("ou".toList, "o".toList),
    ("oi".toList, "oy".toList), ("ie".toList, "i".toList),
    ("ph".toList, "f".toList), ("ck".toList, "k".toList),
    ("x".toList, "ks".toList), ("qu".toList, "kw".toList),
    ("ce".toList, "se".toList), ("ci".toList, "si".toList),
    ("cy".toList, "sy".toList),
    ("tion".toList, "shun".toList), ("sion".toList, "zhun".toList),
    ("ght".toList, "t".toList), ("wh".toList, "w".toList),
    ("wr".toList, "r".toList), ("kn".toList, "n".toList),
    ("gn".toList, "n".toList) ]

/-- Keep only `[a-z0-9]` (the final `re.sub(r'[^a-z0-9]', '', result)`). -/
def keepAlnumLower (l : List Char) : List Char :=
  l.filter (fun c => ('a' ≤ c ∧ c ≤ 'z') ∨ ('0' ≤ c ∧ c ≤ '9'))

/-- `Dictionary._to_phonetic`: lowercase, drop spaces, apply the ordered
substitutions (`mb$`, run collapse and the three suffix rules in source
order), then strip remaining non-alphanumerics. -/
def Dictionary.toPhonetic (text : String) : String :=
  let t := stripSpacesL (lowerList text.toList)
  let t := phoneticSubs.foldl (fun s pr => replaceAll s pr.1 pr.2) t
  let t := replaceSuffix t "mb".toList "m".toList
  let t := replaceAll t "mn".toList "n".toList
  let t := collapseRuns t
  let t := replaceSuffix t "e".toList ([] : List Char)
  let t := replaceSuffix t "ed".toList "d".toList
  let t := replaceSuffix t "ing".toList "n".toList
  String.mk (keepAlnumLower t)

/-- `Dictionary._similarity`: difflib ratio of two strings. -/
def Dictionary.similarity (a b : String) : ℚ := ratioQ a.toList b.toList

/-- `Dictionary._phonetic_similarity`: the better of the phonetic-form ratio
and the raw ratio of `text.lower().replace(' ', '')` against `term.lower()`
(the term keeps its spaces, exactly as the source does). -/
def Dictionary.phoneticSimilarity (text term : String) : ℚ :=
  qmax (Dictionary.similarity (Dictionary.toPhonetic text) (Dictionary.toPhonetic term))
    (Dictionary.similarity (stripSpaces (lowerStr text)) (lowerStr term))

/-- The spec-worded similarity, for comparison with the source's: clause (b)
lowercases AND removes spaces from BOTH untransformed inputs. -/
def Dictionary.phoneticSimilaritySpec (text term : String) : ℚ :=
  qmax (Dictionary.similarity (Dictionary.toPhonetic text) (Dictionary.toPhonetic term))
    (Dictionary.similarity (stripSpaces (lowerStr text)) (stripSpaces (lowerStr term)))
/-- A match candidate as appended by `_find_matches_in_text`:
`(phrase, term, similarity, start, start + len(phrase))`. -/
structure MatchT where
  original : String
  term : String
  sim : ℚ
  startPos : Nat
  endPos : Nat
deriving DecidableEq, Repr

/-- The fixed stop-word set `ignore_words` of `_find_matches_in_text`. -/
def ignoreWords : List String :=
  [ "the", "a", "an", "to", "of", "in", "on", "at", "by", "for",
    "is", "it", "be", "as", "or", "and", "but", "if", "so", "no",
    "out", "up", "do", "my", "me", "we", "he", "she", "you", "i",
    "was", "has", "had", "are", "were", "been", "have", "get", "got" ]

/-- The acceptance threshold computed by `_find_matches_in_text`: base 0.75,
raised to 0.90 / 0.80 by term length, to at least 0.85 for single-word
windows, and to at least 0.90 when the stripped window length exceeds
1.5 times the term length. -/
def Dictionary.thresholdFor (term phrase : String) : ℚ :=
  let t1 : ℚ :=
    if term.length ≤ 4 then mkRat 9 10
    else if term.length ≤ 6 then mkRat 4 5 else mkRat 3 4
  let t2 : ℚ := if (splitWords phrase).length = 1 then qmax t1 (mkRat 17 20) else t1
  if 2 * strippedLen phrase > 3 * term.length then qmax t2 (mkRat 9 10) else t2

/-- The body of `_find_matches_in_text`'s innermost loop: skip windows of
stop words only, skip windows stripped-shorter than 40% of the term, score
the rest and keep those at or above the threshold whose lowercase phrase is
found in the lowercase text. -/
def Dictionary.evalWindow (text term phrase : String) : Option MatchT :=
  if (splitWords (lowerStr phrase)).all (fun w => w ∈ ignoreWords) then none
  else if 5 * strippedLen phrase < 2 * term.length then none
  else
    let sim := Dictionary.phoneticSimilarity phrase term
    if Dictionary.thresholdFor term phrase ≤ sim then
      match findSub (lowerStr text).toList (lowerStr phrase).toList with
      | some s => some ⟨phrase, term, sim, s, s + phrase.length⟩
      | none => none
    else none

/-- All word windows tried for one term: sizes `1 .. min(max(4, wc+1), W)`,
each size sliding over every start position, joined with single spaces. -/
def Dictionary.windowsFor (ws : List String) (term : String) : List String :=
  let maxWindow := max 4 ((splitWords term).length + 1)
  (List.range' 1 (min maxWindow ws.length)).flatMap (fun size =>
    (List.range (ws.length - size + 1)).map (fun i =>
      String.intercalate " " ((ws.drop i).take size)))

/-- `Dictionary._find_matches_in_text`. -/
def Dictionary.findMatchesInText (terms : List String) (text : String) : List MatchT :=
  let ws := splitWords text
  if ws = [] ∨ terms = [] then []
  else terms.flatMap (fun term =>
    (Dictionary.windowsFor ws term).filterMap (Dictionary.evalWindow text term))

/-- The length-fit part of `apply`'s ranking:
`1 - min(|stripped/termLen - 1.2|, 1)`. -/
def Dictionary.lenScore (m : MatchT) : ℚ :=
  let r : ℚ := mkRat (strippedLen m.original) (max m.term.length 1)
  qsub 1 (qmin (qabs (qsub r (mkRat 6 5))) 1)

/-- The composite ranking score `similarity*10 + lengthFit` of `apply`. -/
def Dictionary.compositeScore (m : MatchT) : ℚ :=
  qadd (qmul m.sim 10) (Dictionary.lenScore m)

/-- `apply`'s sort key `match_score` (the negated composite score; Python
sorts ascending by it). -/
def Dictionary.matchKey (m : MatchT) : ℚ :=
  qsub 0 (Dictionary.compositeScore m)

/-- The candidate order used by `apply`: ascending `matchKey`, i.e.
descending composite score (stable, like Python's `list.sort`). -/
def Dictionary.keyOrder (m1 m2 : MatchT) : Prop :=
  Dictionary.matchKey m1 ≤ Dictionary.matchKey m2

instance : DecidableRel Dictionary.keyOrder := fun _ _ =>
  inferInstanceAs (Decidable (_ ≤ _))

instance : IsTotal MatchT Dictionary.keyOrder :=
  ⟨fun m1 m2 => le_total (Dictionary.matchKey m1) (Dictionary.matchKey m2)⟩

instance : IsTrans MatchT Dictionary.keyOrder :=
  ⟨fun _ _ _ h1 h2 => le_trans h1 h2⟩

/-- `matches.sort(key=match_score)`. -/
def Dictionary.sortMatches (l : List MatchT) : List MatchT :=
  l.insertionSort Dictionary.keyOrder

/-- The verbatim-term rejection of `apply`: a multi-word window one of whose
words equals the term (case-insensitively). -/
def Dictionary.termInWindow (m : MatchT) : Prop :=
  1 < (splitWords (lowerStr m.original)).length ∧
    lowerStr m.term ∈ splitWords (lowerStr m.original)

instance (m : MatchT) : Decidable (Dictionary.termInWindow m) :=
  inferInstanceAs (Decidable (And _ _))

/-- One committed span `pr` does not overlap the candidate `m`
(`end <= applied_start or start >= applied_end`). -/
def spanClearB (m : MatchT) (pr : Nat × Nat) : Bool :=
  decide (m.endPos ≤ pr.1) || decide (pr.2 ≤ m.startPos)

/-- Case-insensitive first-occurrence replacement:
`re.compile(re.escape(original), re.IGNORECASE).sub(replacement, result, count=1)`. -/
def replaceFirstCI (res original term : String) : String :=
  match findSub (lowerList res.toList) (lowerList original.toList) with
  | some p =>
    String.mk (res.toList.take p ++ term.toList ++ res.toList.drop (p + original.length))
  | none => res

/-- The greedy commit loop of `apply`: walk the ranked candidates, skipping
those equal to their term, those with the term verbatim inside a multi-word
window, and those overlapping an already committed span; otherwise replace
the first case-insensitive occurrence and record the span if the text
changed. -/
def Dictionary.commitLoop : List MatchT → String → List (Nat × Nat) → String × List (Nat × Nat)
  | [], res, applied => (res, applied)
  | m :: ms, res, applied =>
    if lowerStr m.original = lowerStr m.term then Dictionary.commitLoop ms res applied
    else if Dictionary.termInWindow m then Dictionary.commitLoop ms res applied
    else if applied.all (spanClearB m) then
      let newRes := replaceFirstCI res m.original m.term
      if newRes ≠ res then Dictionary.commitLoop ms newRes ((m.startPos, m.endPos) :: applied)
      else Dictionary.commitLoop ms res applied
    else Dictionary.commitLoop ms res applied

/-- `Dictionary.apply`, also exposing the committed spans. -/
def Dictionary.applyWithSpans (terms : List String) (text : String) :
    String × List (Nat × Nat) :=
  if terms = [] ∨ text = "" then (text, [])
  else
    let ms := Dictionary.findMatchesInText terms text
    if ms = [] then (text, [])
    else Dictionary.commitLoop (Dictionary.sortMatches ms) text []

/-- `Dictionary.apply`: the transcript after dictionary replacement. -/
def Dictionary.apply (terms : List String) (text : String) : String :=
  (Dictionary.applyWithSpans terms text).1

/-! ## Scrubber (src/scrubber.py) -/

/-- A regex word character (`\w`, ASCII): letters, digits, underscore. -/
def isWordChar (c : Char) : Bool := c.isAlphanum || c = '_'

/-- Whether a word boundary (`\b`) sits between two adjacent positions,
given the characters on each side (`none` beyond the string ends). -/
def wordBoundary (x y : Option Char) : Bool :=
  (match x with | some c => isWordChar c | none => false) !=
    (match y with | some c => isWordChar c | none => false)

/-- Whether `(?i)\b<filler>\b` matches at the head of `s`, with `prev` the
original character just before this position. -/
def fillerHeadMatch (filler : List Char) (prev : Option Char) (s : List Char) : Bool :=
  let pre := s.take filler.length
  decide (lowerList pre = filler) && decide (pre.length = filler.length) &&
    wordBoundary prev s.head? &&
    wordBoundary ((s.take filler.length).getLast?) (s.drop filler.length).head?

/-- One pass of `re.sub(r'(?i)\b' + filler + r'\b[,.]?\s*', ' ', s)`:
left-to-right scan replacing each match (filler, one optional trailing comma
or period, following whitespace) by a single space, resuming after the match. -/
def removeFillerAux (filler : List Char) : Nat → Option Char → List Char → List Char
  | 0, _, s => s
  | fuel + 1, prev, s =>
    match s with
    | [] => []
    | c :: rest =>
      if filler ≠ [] ∧ fillerHeadMatch filler prev s then
        let afterF := s.drop filler.length
        let lastF := (s.take filler.length).getLast?
        let (afterP, lastP) :=
          match afterF with
          | d :: ds => if d = ',' ∨ d = '.' then (ds, some d) else (afterF, lastF)
          | [] => ([], lastF)
        let ws := afterP.takeWhile isPyWs
        let restAfter := afterP.dropWhile isPyWs
        let newPrev := match ws.getLast? with | some w => some w | none => lastP
        ' ' :: removeFillerAux filler fuel newPrev restAfter
      else c :: removeFillerAux filler fuel (some c) rest

/-- Remove one filler everywhere in `s`. -/
def removeFiller (s : List Char) (filler : String) : List Char :=
  removeFillerAux (lowerList filler.toList) (s.length + 1) none s

/-- `re.sub(r'\s+', ' ', s)`: collapse every whitespace run to one space. -/
def collapseWsAux : Nat → List Char → List Char
  | 0, s => s
  | fuel + 1, s =>
    match s with
    | [] => []
    | c :: rest =>
      if isPyWs c then ' ' :: collapseWsAux fuel (rest.dropWhile isPyWs)
      else c :: collapseWsAux fuel rest

/-- The punctuation class `[.,!?]` of `_cleanup`. -/
def isPunct (c : Char) : Bool := c = '.' || c = ',' || c = '!' || c = '?'

/-- `re.sub(r'\s+([.,!?])', r'\1', s)`: drop whitespace runs that directly
precede a punctuation mark. -/
def dropWsBeforePunctAux : Nat → List Char → List Char
  | 0, s => s
  | fuel + 1, s =>
    match s with
    | [] => []
    | c :: rest =>
      if isPyWs c then
        let run := rest.dropWhile isPyWs
        match run with
        | d :: _ =>
          if isPunct d then dropWsBeforePunctAux fuel run
          else c :: rest.takeWhile isPyWs ++ dropWsBeforePunctAux fuel run
        | [] => c :: rest.takeWhile isPyWs
      else c :: dropWsBeforePunctAux fuel rest

/-- `re.sub(r'([.,!?])\s*([.,!?])', r'\1', s)`: collapse a punctuation mark,
optional whitespace and a second mark to the first mark, resuming after the
match. -/
def collapsePunctAux : Nat → List Char → List Char
  | 0, s => s
  | fuel + 1, s =>
    match s with
    | [] => []
    | c :: rest =>
      if isPunct c then
        let ws := rest.takeWhile isPyWs
        let after := rest.dropWhile isPyWs
        match after with
        | d :: ds => if isPunct d then c :: collapsePunctAux fuel ds
                     else c :: collapsePunctAux fuel rest
        | [] => c :: ws
      else c :: collapsePunctAux fuel rest

/-- `re.sub(r'([.!?]\s+)([a-z])', ..., s)`: uppercase a lowercase letter that
follows sentence-ending punctuation and whitespace. -/
def capAfterSentenceAux : Nat → List Char → List Char
  | 0, s => s
  | fuel + 1, s =>
    match s with
    | [] => []
    | c :: rest =>
      if c = '.' || c = '!' || c = '?' then
        let ws := rest.takeWhile isPyWs
        let after := rest.dropWhile isPyWs
        match after with
        | d :: ds =>
          if ws ≠ [] ∧ 'a' ≤ d ∧ d ≤ 'z' then
            c :: ws ++ d.toUpper :: capAfterSentenceAux fuel ds
          else c :: capAfterSentenceAux fuel rest
        | [] => c :: capAfterSentenceAux fuel rest
      else c :: capAfterSentenceAux fuel rest

/-- Capitalize the first character when it is a lowercase letter
(`if text and text[0].islower()`). -/
def capFirst : List Char → List Char
  | [] => []
  | c :: rest => if c.isLower then c.toUpper :: rest else c :: rest

/-- Python `str.strip()` on ASCII whitespace. -/
def trimWs (l : List Char) : List Char :=
  ((l.dropWhile isPyWs).reverse.dropWhile isPyWs).reverse

/-- `Scrubber._cleanup`: whitespace collapse, punctuation spacing fixes,
sentence capitalization, leading capital, strip. -/
def Scrubber.cleanup (text : String) : String :=
  let t := collapseWsAux (text.toList.length + 1) text.toList
  let t := dropWsBeforePunctAux (t.length + 1) t
  let t := collapsePunctAux (t.length + 1) t
  let t := capAfterSentenceAux (t.length + 1) t
  let t := capFirst t
  String.mk (trimWs t)

/-- `Scrubber.scrub`: with the scrubber enabled and a nonempty text, remove
each configured filler (longest first, stable for equal lengths like
Python's `sorted`) and clean up the result. -/
def Scrubber.scrub (enabled : Bool) (fillers : List String) (text : String) : String :=
  if !enabled || text = "" then text
  else
    let sortedFillers := fillers.insertionSort (fun a b => b.length ≤ a.length)
    Scrubber.cleanup (String.mk (sortedFillers.foldl removeFiller text.toList))

/-! ## Key parsing and the recording state machine (src/app.py)

Keys are modelled post-normalization: `_normalize_key` folds right-side
modifiers to the left variants and character keys to lowercase, so the
state machine below receives canonical `PKey` values.
-/

/-- Canonical key identities produced by `_parse_key` / `_normalize_key`. -/
inductive PKey where
  | ctrlL | altL | shiftL | space | enter | tab | esc | backspace | delete
  | insertKey | home | endKey | pageUp | pageDown | up | down | left | right
  | f1 | f2 | f3 | f4 | f5 | f6 | f7 | f8 | f9 | f10 | f11 | f12
  | ch (c : Char)
deriving DecidableEq, Repr

/-- The fixed name table of `_parse_key`. -/
def keyTable : List (String × PKey) :=
  [ ("ctrl", .ctrlL), ("control", .ctrlL), ("alt", .altL), ("shift", .shiftL),
    ("space", .space), ("enter", .enter), ("return", .enter), ("tab", .tab),
    ("escape", .esc), ("esc", .esc), ("backspace", .backspace),
    ("delete", .delete), ("del", .delete), ("insert", .insertKey),
    ("home", .home), ("end", .endKey), ("pageup", .pageUp),
    ("pagedown", .pageDown), ("up", .up), ("down", .down), ("left", .left),
    ("right", .right), ("f1", .f1), ("f2", .f2), ("f3", .f3), ("f4", .f4),
    ("f5", .f5), ("f6", .f6), ("f7", .f7), ("f8", .f8), ("f9", .f9),
    ("f10", .f10), ("f11", .f11), ("f12", .f12) ]

/-- `key_str.strip().lower()`: the token normalization of `_parse_key`. -/
def normTok (s : String) : List Char := lowerList (trimWs s.toList)

/-- The single-alphanumeric-character fallback of `_parse_key`
(`len(key_str) == 1 and key_str.isalnum()`). -/
def singleAlnumKey (l : List Char) : Option PKey :=
  match l with
  | [c] => if c.isAlphanum then some (.ch c) else none
  | _ => none

/-- `FreeVoice._parse_key`: trim, lowercase, look up the fixed table, else
accept a single alphanumeric character; anything else is unknown (`None`). -/
def FreeVoice.parseKey (s : String) : Option PKey :=
  match keyTable.find? (fun p => p.1.toList = normTok s) with
  | some p => some p.2
  | none => singleAlnumKey (normTok s)

/-- Python `spec.split("+")` (single-character separator, empties kept). -/
def splitOnPlusAux : Nat → List Char → List Char → List String
  | 0, acc, _ => [String.mk acc.reverse]
  | _, acc, [] => [String.mk acc.reverse]
  | fuel + 1, acc, c :: rest =>
    if c = '+' then String.mk acc.reverse :: splitOnPlusAux fuel [] rest
    else splitOnPlusAux fuel (c :: acc) rest

/-- Python `spec.split("+")` as used by `_get_ptt_keys`. -/
def splitOnPlus (s : String) : List String :=
  splitOnPlusAux (s.toList.length + 1) [] s.toList

/-- `FreeVoice._get_ptt_keys`: parse each `+`-separated part, keep the known
keys, and fall back to Ctrl+Alt when nothing parses. -/
def FreeVoice.getPttKeys (shortcut : String) : List PKey :=
  let keys := (splitOnPlus shortcut).filterMap FreeVoice.parseKey
  if keys = [] then [PKey.ctrlL, PKey.altL] else keys

/-- Shortcut configuration handed to the state machine. -/
structure Config where
  pttKeys : List PKey
  lockKey : PKey
  cancelKey : PKey
deriving Repr

/-- The default configuration (Ctrl+Alt, Space, Escape). -/
def cfgDefault : Config := ⟨[PKey.ctrlL, PKey.altL], PKey.space, PKey.esc⟩

/-- Observable collaborator calls made by the state machine and pipeline. -/
inductive Ev where
  | recStart | recStop | spawnPipeline | recognize | dictApply | scrubRun
  | statsRec | inject | discardWav
deriving DecidableEq, Repr

/-- The mutable state of `FreeVoice` that the claims concern.
`hasAudioData` models whether the capture collaborator will return an audio
handle from `stop()` (none captured when false). -/
structure AppState where
  isRecording : Bool
  isLocked : Bool
  isProcessing : Bool
  pressedKeys : List PKey
  pttWasPressed : Bool
  hasAudioData : Bool
deriving DecidableEq, Repr

/-- `self._pressed_keys.add(key)` (set semantics). -/
def addKey (k : PKey) (l : List PKey) : List PKey := if k ∈ l then l else k :: l

/-- `ptt_keys.issubset(self._pressed_keys)`. -/
def keySubset (a b : List PKey) : Prop := ∀ k ∈ a, k ∈ b

instance (a b : List PKey) : Decidable (keySubset a b) :=
  inferInstanceAs (Decidable (∀ k ∈ a, k ∈ b))

/-- `FreeVoice._start_recording`: ignored when already recording; otherwise
marks recording, clears lock and starts capture. -/
def FreeVoice.startRecording (st : AppState) : AppState × List Ev :=
  if st.isRecording then (st, [])
  else ({st with isRecording := true, isLocked := false}, [Ev.recStart])

/-- `FreeVoice._stop_recording`: ignored when not recording; otherwise clears
recording/lock, sets the processing flag and spawns the pipeline thread. -/
def FreeVoice.stopRecording (st : AppState) : AppState × List Ev :=
  if !st.isRecording then (st, [])
  else ({st with isRecording := false, isLocked := false, isProcessing := true},
    [Ev.spawnPipeline])

/-- `FreeVoice._cancel_recording`: ignored when not recording; otherwise
clears recording/lock, stops capture and deletes the audio file if any. -/
def FreeVoice.cancelRecording (st : AppState) : AppState × List Ev :=
  if !st.isRecording then (st, [])
  else
    let st1 := {st with isRecording := false, isLocked := false, hasAudioData := false}
    if st.hasAudioData then (st1, [Ev.recStop, Ev.discardWav])
    else (st1, [Ev.recStop])

/-- `FreeVoice._lock_recording`. -/
def FreeVoice.lockRecording (st : AppState) : AppState × List Ev :=
  ({st with isLocked := true}, [])

/-- The body of the spawned pipeline thread, `FreeVoice._process_recording`:
stop capture; when a handle came back, transcribe (`transcript` is the
recognizer's answer, `none` for failure) and, on nonempty text, run the
dictionary, the scrubber, record stats and inject; always clear the
processing flag. -/
def FreeVoice.processRecording (st : AppState) (transcript : Option String) :
    AppState × List Ev :=
  let hadAudio := st.hasAudioData
  let st1 := {st with hasAudioData := false, isProcessing := false}
  if hadAudio then
    match transcript with
    | some t =>
      if t = "" then (st1, [Ev.recStop, Ev.recognize])
      else (st1, [Ev.recStop, Ev.recognize, Ev.dictApply, Ev.scrubRun,
        Ev.statsRec, Ev.inject])
    | none => (st1, [Ev.recStop, Ev.recognize])
  else (st1, [Ev.recStop])

/-- A stop together with the complete run of the pipeline thread it spawned
(the thread runs `_process_recording` exactly when the stop fired). -/
def FreeVoice.stopAndProcess (st : AppState) (transcript : Option String) :
    AppState × List Ev :=
  let (st1, evs1) := FreeVoice.stopRecording st
  if st.isRecording then
    let (st2, evs2) := FreeVoice.processRecording st1 transcript
    (st2, evs1 ++ evs2)
  else (st1, evs1)

/-- `FreeVoice._on_key_press` for an already-normalized key: record the key,
let the cancel key win while recording, then evaluate the PTT combo for the
lock / locked-stop / start transitions (the early-`return` branches skip the
`_ptt_was_pressed` update, exactly as in the source). -/
def FreeVoice.onKeyPress (cfg : Config) (st : AppState) (k : PKey) :
    AppState × List Ev :=
  let st1 := {st with pressedKeys := addKey k st.pressedKeys}
  if k = cfg.cancelKey ∧ st1.isRecording then FreeVoice.cancelRecording st1
  else
    let ptt := decide (keySubset cfg.pttKeys st1.pressedKeys)
    if ptt ∧ k = cfg.lockKey ∧ st1.isRecording ∧ !st1.isLocked then
      FreeVoice.lockRecording st1
    else if ptt ∧ st1.isLocked ∧ !st1.pttWasPressed then
      FreeVoice.stopRecording st1
    else if ptt ∧ !st1.isRecording ∧ !st1.isProcessing then
      let r := FreeVoice.startRecording st1
      ({r.1 with pttWasPressed := ptt}, r.2)
    else ({st1 with pttWasPressed := ptt}, [])

/-- `FreeVoice._on_key_release` for an already-normalized key. -/
def FreeVoice.onKeyRelease (cfg : Config) (st : AppState) (k : PKey) :
    AppState × List Ev :=
  let r :=
    if st.isRecording ∧ !st.isLocked ∧ k ∈ cfg.pttKeys then
      FreeVoice.stopRecording st
    else (st, [])
  let st2 := {r.1 with pressedKeys := r.1.pressedKeys.erase k}
  ({st2 with pttWasPressed := decide (keySubset cfg.pttKeys st2.pressedKeys)}, r.2)

/-! ## Claims -/

/-- Claim C10: `Dictionary.apply` is the identity whenever the term list is
empty or the input text is empty. -/
theorem c10_apply_identity (terms : List String) (text : String)
    (h : terms = [] ∨ text = "") : Dictionary.apply terms text = text := by
  simp [Dictionary.apply, Dictionary.applyWithSpans, if_pos h]

/-- Witness for C10 at a concrete input. -/
theorem c10_apply_identity_witness : Dictionary.apply [] "I used get hub today" =
    "I used get hub today" :=
  c10_apply_identity [] "I used get hub today" (Or.inl rfl)

/-- Claim C2, counterexample: the similarity score is NOT always the maximum
of the phonetic ratio and the ratio of the two inputs each lowercased with
all spaces removed — the source keeps the term's spaces in the raw clause.
At text "sight" and term "nig ht" the source gives 8/11, the spec 4/5. -/
theorem c2_counterexample :
    Dictionary.phoneticSimilarity "sight" "nig ht" ≠
      Dictionary.phoneticSimilaritySpec "sight" "nig ht" := by decide

/-- Claim C2 as amended: the similarity equals the maximum of (a) the ratio
of the two phonetic forms and (b) the raw ratio between the text lowercased
with spaces removed and the term merely lowercased (spaces retained). -/
theorem c2_amended (text term : String) :
    Dictionary.phoneticSimilarity text term =
      qmax (ratioQ (Dictionary.toPhonetic text).toList (Dictionary.toPhonetic term).toList)
        (ratioQ (stripSpaces (lowerStr text)).toList (lowerStr term).toList) := rfl

/-- Claim C3, counterexample: scrubbing "Um, I think, uh, this works." with
fillers ["um", "uh"] does NOT give "I think this works." — the comma before
each filler is kept (only the one after it is consumed). -/
theorem c3_counterexample :
    Scrubber.scrub true ["um", "uh"] "Um, I think, uh, this works." ≠
      "I think this works." := by decide

/-- Claim C3 as amended: the scrub of that input yields
"I think, this works." (the comma preceding a removed filler survives). -/
theorem c3_amended :
    Scrubber.scrub true ["um", "uh"] "Um, I think, uh, this works." =
      "I think, this works." := by decide

/-- Claim C6: parsing a shortcut splits on `+`, trims and lowercases each
token and maps known names through the fixed table; a token that is neither
a known name nor a single alphanumeric character parses to nothing (the
source's `None`, the spec's `ParseError::UnknownKey`), and when no token of
the specification parses, the caller-supplied default Ctrl+Alt combo is
used for push-to-talk. -/
theorem c6_parse_and_default :
    (∀ tok : String, FreeVoice.parseKey tok = none ↔
      ((∀ p ∈ keyTable, p.1.toList ≠ normTok tok) ∧
        ∀ c : Char, normTok tok = [c] → c.isAlphanum = false)) ∧
    (∀ s : String, (splitOnPlus s).filterMap FreeVoice.parseKey = [] →
      FreeVoice.getPttKeys s = [PKey.ctrlL, PKey.altL]) := by
  constructor
  · intro tok
    rcases hfind : keyTable.find? (fun p => p.1.toList = normTok tok) with _ | p
    · have hall : ∀ p ∈ keyTable, p.1.toList ≠ normTok tok := by
        intro p hp
        simpa using List.find?_eq_none.mp hfind p hp
      have hred : FreeVoice.parseKey tok = singleAlnumKey (normTok tok) := by
        simp only [FreeVoice.parseKey, hfind]
      rw [hred]
      constructor
      · intro h
        refine ⟨hall, fun c hc => ?_⟩
        rw [hc] at h
        simpa [singleAlnumKey] using h
      · rintro ⟨-, hb⟩
        rcases hl : normTok tok with _ | ⟨c, rest⟩
        · simp [singleAlnumKey]
        · rcases rest with _ | ⟨d, rest⟩
          · simp [singleAlnumKey, hb c hl]
          · simp [singleAlnumKey]
    · have hp1 : p.1.toList = normTok tok := by
        simpa using List.find?_some hfind
      have hpmem : p ∈ keyTable := List.mem_of_find?_eq_some hfind
      simp only [FreeVoice.parseKey, hfind]
      constructor
      · intro h; exact absurd h (by simp)
      · rintro ⟨ha, -⟩; exact absurd hp1 (ha p hpmem)
  · intro s h
    unfold FreeVoice.getPttKeys
    simp [h]

/-- Witness for C6 at a concrete shortcut whose tokens are all unknown. -/
theorem c6_parse_and_default_witness :
    FreeVoice.getPttKeys "foo+bar" = [PKey.ctrlL, PKey.altL] :=
  c6_parse_and_default.2 "foo+bar" (by decide)

/-- Claim C7, counterexample: when recording stops with no captured audio,
the pipeline thread IS spawned (the source starts the worker before asking
the recorder for the audio handle), contradicting the claim that it is not. -/
theorem c7_counterexample :
    Ev.spawnPipeline ∈
      (FreeVoice.stopAndProcess
        ⟨true, false, false, [PKey.ctrlL, PKey.altL], true, false⟩ none).2 := by
  decide

/-- Claim C7 as amended: when recording stops and the capture collaborator
reports no audio, the spawned pipeline thread stops capture and exits at
once — the recognizer, dictionary, scrubber and injector are never invoked
— and the machine returns to Idle with the processing flag cleared. -/
theorem c7_no_audio_skips_pipeline (st : AppState) (tr : Option String)
    (h1 : st.isRecording = true) (h2 : st.hasAudioData = false) :
    (FreeVoice.stopAndProcess st tr).2 = [Ev.spawnPipeline, Ev.recStop] ∧
    (FreeVoice.stopAndProcess st tr).1.isProcessing = false ∧
    (FreeVoice.stopAndProcess st tr).1.isRecording = false := by
  unfold FreeVoice.stopAndProcess FreeVoice.stopRecording FreeVoice.processRecording
  simp [h1, h2]

/-- Witness for C7's amended theorem at a concrete state. -/
theorem c7_no_audio_skips_pipeline_witness :
    (FreeVoice.stopAndProcess
      ⟨true, false, false, [PKey.ctrlL, PKey.altL], true, false⟩ none).2 =
      [Ev.spawnPipeline, Ev.recStop] :=
  (c7_no_audio_skips_pipeline
    ⟨true, false, false, [PKey.ctrlL, PKey.altL], true, false⟩ none rfl rfl).1

/-- Claim C8: while the processing flag is set or a recording is active, a
key press never starts a new capture (`recStart` is never emitted) and
cannot make a non-recording state recording — so a second overlapping
session is never created. -/
theorem c8_no_second_session (cfg : Config) (st : AppState) (k : PKey)
    (h : st.isProcessing = true ∨ st.isRecording = true) :
    Ev.recStart ∉ (FreeVoice.onKeyPress cfg st k).2 ∧
    ((FreeVoice.onKeyPress cfg st k).1.isRecording = true →
      st.isRecording = true) := by
  simp only [FreeVoice.onKeyPress, FreeVoice.cancelRecording,
    FreeVoice.lockRecording, FreeVoice.stopRecording, FreeVoice.startRecording]
  rcases h with h | h <;> split_ifs <;> simp_all

/-- Witness for C8 at a concrete processing state. -/
theorem c8_no_second_session_witness :
    Ev.recStart ∉
      (FreeVoice.onKeyPress cfgDefault
        ⟨false, false, true, [PKey.altL], false, false⟩ PKey.ctrlL).2 :=
  (c8_no_second_session cfgDefault
    ⟨false, false, true, [PKey.altL], false, false⟩ PKey.ctrlL (Or.inl rfl)).1

/-- Claim C9, counterexample: pressing the cancel key while NOT recording is
not a no-op — with the PTT combo held and the machine idle, the Escape
press itself starts a recording (the cancel branch is guarded by
`is_recording`, after which the press is processed like any other key). -/
theorem c9_counterexample :
    (FreeVoice.onKeyPress cfgDefault
      ⟨false, false, false, [PKey.ctrlL, PKey.altL], true, true⟩ PKey.esc).1.isRecording
      = true := by decide

/-- Claim C9 as amended: pressing the cancel key while recording (also when
locked) wins over start/stop: the machine returns directly to Idle, the
captured audio is discarded and never reaches the recognizer, and no
pipeline is spawned; pressing it while not recording performs no cancel
action (nothing stopped or discarded), though the press is still processed
as an ordinary key event and may itself trigger other transitions. -/
theorem c9_cancel_behaviour (cfg : Config) (st : AppState) :
    (st.isRecording = true →
      (FreeVoice.onKeyPress cfg st cfg.cancelKey).1.isRecording = false ∧
      (FreeVoice.onKeyPress cfg st cfg.cancelKey).1.isLocked = false ∧
      Ev.spawnPipeline ∉ (FreeVoice.onKeyPress cfg st cfg.cancelKey).2 ∧
      Ev.recognize ∉ (FreeVoice.onKeyPress cfg st cfg.cancelKey).2 ∧
      Ev.recStart ∉ (FreeVoice.onKeyPress cfg st cfg.cancelKey).2 ∧
      (st.hasAudioData = true →
        Ev.discardWav ∈ (FreeVoice.onKeyPress cfg st cfg.cancelKey).2)) ∧
    (st.isRecording = false →
      Ev.discardWav ∉ (FreeVoice.onKeyPress cfg st cfg.cancelKey).2 ∧
      Ev.recStop ∉ (FreeVoice.onKeyPress cfg st cfg.cancelKey).2) := by
  simp only [FreeVoice.onKeyPress, FreeVoice.cancelRecording,
    FreeVoice.lockRecording, FreeVoice.stopRecording, FreeVoice.startRecording]
  constructor
  · intro h
    split_ifs <;> simp_all
  · intro h
    split_ifs <;> simp_all

/-- Witness for C9's amended theorem: cancel during a locked recording with
captured audio discards it and returns to Idle. -/
theorem c9_cancel_behaviour_witness :
    (FreeVoice.onKeyPress cfgDefault
      ⟨true, true, false, [PKey.ctrlL, PKey.altL, PKey.esc], true, true⟩
      PKey.esc).1.isRecording = false :=
  ((c9_cancel_behaviour cfgDefault
    ⟨true, true, false, [PKey.ctrlL, PKey.altL, PKey.esc], true, true⟩).1 rfl).1

/-- The acceptance floor exactly as claim C4 words it: 0.90 for terms of
length at most 4, 0.80 up to length 6, 0.75 beyond; at least 0.85 for
single-word windows; at least 0.90 when the space-stripped window length
exceeds 1.5 times the term length. -/
def specFloor (term phrase : String) : ℚ :=
  qmax
    (if term.length ≤ 4 then mkRat 9 10
     else if term.length ≤ 6 then mkRat 4 5 else mkRat 3 4)
    (qmax (if (splitWords phrase).length = 1 then mkRat 17 20 else 0)
      (if 2 * strippedLen phrase > 3 * term.length then mkRat 9 10 else 0))

/-- The source's threshold dominates the claim's floor. -/
theorem specFloor_le_thresholdFor (term phrase : String) :
    specFloor term phrase ≤ Dictionary.thresholdFor term phrase := by
  simp only [specFloor, Dictionary.thresholdFor]
  by_cases h1 : term.length ≤ 4 <;> by_cases h2 : term.length ≤ 6 <;>
    by_cases h3 : (splitWords phrase).length = 1 <;>
    by_cases h4 : 2 * strippedLen phrase > 3 * term.length <;>
    simp only [h1, h2, h3, h4, if_true, if_false] <;> decide

/-- Claim C4: every match emitted by `_find_matches_in_text` has similarity
at least the length-dependent floor: terms of length ≤4 need ≥0.90, ≤6 need
≥0.80, longer need ≥0.75; single-word windows need ≥0.85; windows whose
space-stripped length exceeds 1.5 times the term length need ≥0.90. -/
theorem c4_similarity_floor (terms : List String) (text : String) (m : MatchT)
    (hm : m ∈ Dictionary.findMatchesInText terms text) :
    specFloor m.term m.original ≤ m.sim := by
  simp only [Dictionary.findMatchesInText] at hm
  split_ifs at hm with hempty
  · simp at hm
  · rw [List.mem_flatMap] at hm
    obtain ⟨term, -, hm⟩ := hm
    rw [List.mem_filterMap] at hm
    obtain ⟨phrase, -, heval⟩ := hm
    simp only [Dictionary.evalWindow] at heval
    split_ifs at heval with h1 h2 h3
    split at heval
    · injection heval with h
      subst h
      exact le_trans (specFloor_le_thresholdFor term phrase) h3
    · exact absurd heval (by simp)

/-- Witness for C4: the match ("get hub" -> "GitHub") produced on
"I used get hub today" meets its floor. -/
theorem c4_similarity_floor_witness :
    specFloor "GitHub" "get hub" ≤ mkRat 5 6 :=
  c4_similarity_floor ["GitHub"] "I used get hub today"
    ⟨"get hub", "GitHub", mkRat 5 6, 7, 14⟩ (by decide)

/-- Claim C5: the commit loop of `apply` never replaces a window that
already carries the term verbatim — a candidate whose whole text equals the
term (case-insensitively) is skipped, as is a multi-word window one of
whose words equals the term — and on the spec's own examples, with term
"GitHub", `apply` turns "I used get hub today" into "I used GitHub today"
and leaves "I used GitHub today" unchanged. -/
theorem c5_verbatim_term_skip :
    (∀ (m : MatchT) (ms : List MatchT) (res : String) (applied : List (Nat × Nat)),
      (lowerStr m.original = lowerStr m.term ∨ Dictionary.termInWindow m) →
      Dictionary.commitLoop (m :: ms) res applied =
        Dictionary.commitLoop ms res applied) ∧
    Dictionary.apply ["GitHub"] "I used get hub today" = "I used GitHub today" ∧
    Dictionary.apply ["GitHub"] "I used GitHub today" = "I used GitHub today" := by
  refine ⟨?_, by decide, by decide⟩
  intro m ms res applied h
  by_cases h1 : lowerStr m.original = lowerStr m.term
  · rw [Dictionary.commitLoop, if_pos h1]
  · rcases h with h | h
    · exact absurd h h1
    · rw [Dictionary.commitLoop, if_neg h1, if_pos h]

/-- Witness for C5's skip rule: the exact-term match on
"I used GitHub today" leaves the commit loop's state untouched. -/
theorem c5_verbatim_term_skip_witness :
    Dictionary.commitLoop [⟨"GitHub", "GitHub", 1, 7, 13⟩] "I used GitHub today" [] =
      Dictionary.commitLoop [] "I used GitHub today" [] :=
  c5_verbatim_term_skip.1 ⟨"GitHub", "GitHub", 1, 7, 13⟩ [] "I used GitHub today" []
    (Or.inl rfl)

/-- Two committed character spans do not overlap
(`end <= applied_start or start >= applied_end`, symmetrically). -/
def spanDisjoint (p q : Nat × Nat) : Prop := p.2 ≤ q.1 ∨ q.2 ≤ p.1

instance (p q : Nat × Nat) : Decidable (spanDisjoint p q) :=
  inferInstanceAs (Decidable (Or _ _))

/-- The commit loop only ever adds spans that clear every committed span, so
the committed list stays pairwise disjoint. -/
theorem commitLoop_pairwise (ms : List MatchT) :
    ∀ (res : String) (applied : List (Nat × Nat)),
      applied.Pairwise spanDisjoint →
      ((Dictionary.commitLoop ms res applied).2).Pairwise spanDisjoint := by
  induction ms with
  | nil => intro res applied h; simpa [Dictionary.commitLoop] using h
  | cons m ms ih =>
    intro res applied h
    simp only [Dictionary.commitLoop]
    split_ifs with h1 h2 h3 h4
    · exact ih res applied h
    · exact ih res applied h
    · refine ih _ _ (List.Pairwise.cons ?_ h)
      intro pr hpr
      have hc := List.all_eq_true.mp h3 pr hpr
      simp only [spanClearB, Bool.or_eq_true, decide_eq_true_eq] at hc
      exact hc
    · exact ih res applied h
    · exact ih res applied h

/-- Claim C1 as amended: no two overlapping candidate spans are ever both
committed — candidates are processed in descending composite score (the
sorted list is ordered by the negated-composite key) and any candidate
whose span overlaps an already committed span is skipped entirely, so the
committed spans are pairwise disjoint.  (The claim's stronger clause, that
of two overlapping candidates the higher-scoring one is always the one
applied, is false: the higher one can itself be skipped by the
verbatim-term rules, letting the lower one commit — see the
counterexample.) -/
theorem c1_no_overlapping_commits (terms : List String) (text : String) :
    ((Dictionary.applyWithSpans terms text).2).Pairwise spanDisjoint ∧
    List.Sorted Dictionary.keyOrder
      (Dictionary.sortMatches (Dictionary.findMatchesInText terms text)) := by
  constructor
  · simp only [Dictionary.applyWithSpans]
    split_ifs
    · simp
    · simp
    · exact commitLoop_pairwise _ _ _ List.Pairwise.nil
  · simpa [Dictionary.sortMatches] using
      List.sorted_insertionSort Dictionary.keyOrder
        (Dictionary.findMatchesInText terms text)

/-- Claim C1, counterexample to the clause "among any two overlapping
candidates, the higher composite score one is applied and the other's span
is skipped": with term "get hub" on "I get hub now", the candidates
"get hub" (similarity 1, the higher composite) and "I get hub" (similarity
12/13) overlap, yet the higher one is skipped (its text equals the term)
and the LOWER one is the one applied. -/
theorem c1_counterexample :
    (⟨"get hub", "get hub", 1, 2, 9⟩ : MatchT) ∈
        Dictionary.findMatchesInText ["get hub"] "I get hub now" ∧
    (⟨"I get hub", "get hub", mkRat 12 13, 0, 9⟩ : MatchT) ∈
        Dictionary.findMatchesInText ["get hub"] "I get hub now" ∧
    ¬ spanDisjoint (2, 9) (0, 9) ∧
    Dictionary.compositeScore ⟨"I get hub", "get hub", mkRat 12 13, 0, 9⟩ <
      Dictionary.compositeScore ⟨"get hub", "get hub", 1, 2, 9⟩ ∧
    (2, 9) ∉ (Dictionary.applyWithSpans ["get hub"] "I get hub now").2 ∧
    (0, 9) ∈ (Dictionary.applyWithSpans ["get hub"] "I get hub now").2 := by
  decide
